import Mathlib

/-!
Verification of the distributed LWW key-value store node (`node.py`):
the Lamport clock, the last-writer-wins store, the node event handlers,
the replication retry loop and the `/replicate` request validation,
shallowly embedded in Lean.
-/

namespace DistKV

/-- A store entry, mirroring the dict `{'value': v, 'timestamp': ts, 'node': n}`
kept per key by `KeyValueStore`.  Timestamps are Python ints, modelled as `Int`. -/
structure Entry (V : Type) where
  value : V
  timestamp : Int
  node : String
deriving DecidableEq, Repr

/-- The store mapping of `KeyValueStore` (`self.store`): a partial map from
keys to entries, modelled as a function into `Option`. -/
def Store (K V : Type) : Type := K → Option (Entry V)

/-- The empty dict `{}` created by `KeyValueStore.__init__`. -/
def Store.empty (K V : Type) : Store K V := fun _ => none

/-- `KeyValueStore.put(key, value, timestamp, node_id)`: install the entry if
the key is absent or the candidate timestamp is strictly greater than the
stored one, returning `(applied, new store)`. -/
def Store.put {K V : Type} [DecidableEq K] (s : Store K V) (k : K) (v : V)
    (ts : Int) (nid : String) : Bool × Store K V :=
  match s k with
  | none => (true, fun x => if x = k then some ⟨v, ts, nid⟩ else s x)
  | some e =>
    if ts > e.timestamp then
      (true, fun x => if x = k then some ⟨v, ts, nid⟩ else s x)
    else
      (false, s)

/-- `KeyValueStore.get(key)`: `self.store.get(key)`, a pure read. -/
def Store.get {K V : Type} (s : Store K V) (k : K) : Option (Entry V) := s k

/-- `KeyValueStore.get` with the (unchanged) store threaded through, recording
that the read performs no mutation. -/
def Store.getS {K V : Type} (s : Store K V) (k : K) : Option (Entry V) × Store K V :=
  (s k, s)

/-- `dict(self.store)` returned by `KeyValueStore.get_all`, with the store
threaded through: the snapshot copy leaves the store unchanged. -/
def Store.getAllS {K V : Type} (s : Store K V) : Store K V × Store K V := (s, s)

/-- The per-key effect of `put` on a single cell: install over `none`, and over
`some e` install exactly when `ts > e.timestamp`. -/
def stepCell {V : Type} (c : Option (Entry V)) (v : V) (ts : Int) (nid : String) :
    Option (Entry V) :=
  match c with
  | none => some ⟨v, ts, nid⟩
  | some e => if ts > e.timestamp then some ⟨v, ts, nid⟩ else some e

theorem put_snd_apply {K V : Type} [DecidableEq K] (s : Store K V) (k : K) (v : V)
    (ts : Int) (nid : String) (x : K) :
    (Store.put s k v ts nid).2 x = if x = k then stepCell (s k) v ts nid else s x := by
  unfold Store.put stepCell
  rcases h : s k with _ | e
  · rfl
  · by_cases hts : ts > e.timestamp
    · simp [hts]
    · by_cases hx : x = k
      · simp [hts, hx, h]
      · simp [hts, hx]

theorem put_fst_eq {K V : Type} [DecidableEq K] (s : Store K V) (k : K) (v : V)
    (ts : Int) (nid : String) :
    (Store.put s k v ts nid).1 =
      match s k with
      | none => true
      | some e => decide (ts > e.timestamp) := by
  unfold Store.put
  rcases h : s k with _ | e
  · rfl
  · by_cases hts : ts > e.timestamp <;> simp [hts]

/-- C2: `put` returns true exactly when the key is absent or the timestamp is
strictly greater than the stored entry's; on true it installs the entry at the
key and touches no other key; on false (ties included) the store is unchanged. -/
theorem put_lww_spec {K V : Type} [DecidableEq K] (s : Store K V) (k : K) (v : V)
    (ts : Int) (nid : String) :
    ((Store.put s k v ts nid).1 = true ↔
      s k = none ∨ ∃ e, s k = some e ∧ e.timestamp < ts) ∧
    ((Store.put s k v ts nid).1 = true →
      (Store.put s k v ts nid).2 k = some ⟨v, ts, nid⟩ ∧
      ∀ x, x ≠ k → (Store.put s k v ts nid).2 x = s x) ∧
    ((Store.put s k v ts nid).1 = false → (Store.put s k v ts nid).2 = s) := by
  refine ⟨?_, ?_, ?_⟩
  · rw [put_fst_eq]
    rcases h : s k with _ | e
    · simp
    · constructor
      · intro ht
        exact Or.inr ⟨e, rfl, by simpa using ht⟩
      · rintro (hc | ⟨e', he', hlt⟩)
        · exact absurd hc (by simp)
        · obtain rfl : e = e' := Option.some.inj he'
          simpa using hlt
  · intro ht
    constructor
    · rw [put_snd_apply]
      simp only [if_pos rfl]
      rw [put_fst_eq] at ht
      rcases h : s k with _ | e
      · simp [stepCell, h]
      · rw [h] at ht
        simp only [decide_eq_true_eq] at ht
        simp [stepCell, h, if_pos ht]
    · intro x hx
      rw [put_snd_apply]
      simp [hx]
  · intro hf
    unfold Store.put at hf ⊢
    rcases h : s k with _ | e
    · simp [h] at hf
    · simp only [h] at hf ⊢
      by_cases hts : ts > e.timestamp
      · simp [hts] at hf
      · simp [hts]

/-- Witness for `put_lww_spec`: a concrete put over the empty store is applied
and installs exactly the written entry. -/
theorem put_lww_spec_witness :
    (Store.put (Store.empty String String) "k" "v" 1 "A").1 = true ∧
    (Store.put (Store.empty String String) "k" "v" 1 "A").2 "k" = some ⟨"v", 1, "A"⟩ := by
  have h := put_lww_spec (Store.empty String String) "k" "v" 1 "A"
  have h1 : (Store.put (Store.empty String String) "k" "v" 1 "A").1 = true :=
    h.1.mpr (Or.inl rfl)
  exact ⟨h1, (h.2.1 h1).1⟩

/-- C4: a duplicate `put` of the same tuple, over a store where the key was
absent: the first call is applied, the second returns false and leaves the
store exactly as after the first. -/
theorem put_idempotent {K V : Type} [DecidableEq K] (s : Store K V) (k : K) (v : V)
    (ts : Int) (nid : String) (h : s k = none) :
    (Store.put s k v ts nid).1 = true ∧
    (Store.put (Store.put s k v ts nid).2 k v ts nid).1 = false ∧
    (Store.put (Store.put s k v ts nid).2 k v ts nid).2 = (Store.put s k v ts nid).2 := by
  have h1 : (Store.put s k v ts nid).1 = true := by
    rw [put_fst_eq, h]
  have hat : (Store.put s k v ts nid).2 k = some ⟨v, ts, nid⟩ := by
    rw [put_snd_apply]
    simp [stepCell, h]
  refine ⟨h1, ?_, ?_⟩
  · rw [put_fst_eq, hat]
    simp
  · funext x
    by_cases hx : x = k
    · subst hx
      rw [put_snd_apply, if_pos rfl, hat]
      simp [stepCell, hat]
    · rw [put_snd_apply, if_neg hx]

/-- Witness for `put_idempotent` at a concrete input. -/
theorem put_idempotent_witness :
    (Store.put (Store.empty String String) "k" "v" 1 "A").1 = true ∧
    (Store.put (Store.put (Store.empty String String) "k" "v" 1 "A").2 "k" "v" 1 "A").1 = false := by
  have h := put_idempotent (Store.empty String String) "k" "v" 1 "A" rfl
  exact ⟨h.1, h.2.1⟩

/-- C9: after an applied `put`, `get` on that key returns exactly the written
entry, verbatim, and `get` itself leaves the store unchanged. -/
theorem put_get_roundtrip {K V : Type} [DecidableEq K] (s : Store K V) (k : K) (v : V)
    (ts : Int) (nid : String) (h : (Store.put s k v ts nid).1 = true) :
    Store.get (Store.put s k v ts nid).2 k = some ⟨v, ts, nid⟩ ∧
    Store.getS (Store.put s k v ts nid).2 k =
      (some ⟨v, ts, nid⟩, (Store.put s k v ts nid).2) := by
  have hat : (Store.put s k v ts nid).2 k = some ⟨v, ts, nid⟩ := by
    rw [put_snd_apply]
    simp only [if_pos rfl]
    rw [put_fst_eq] at h
    rcases hs : s k with _ | e
    · simp [stepCell]
    · rw [hs] at h
      simp only [decide_eq_true_eq] at h
      simp [stepCell, if_pos h]
  exact ⟨hat, by simp [Store.getS, hat]⟩

/-- Witness for `put_get_roundtrip` at a concrete input. -/
theorem put_get_roundtrip_witness :
    Store.get (Store.put (Store.empty String String) "k" "v" 1 "A").2 "k" =
      some ⟨"v", 1, "A"⟩ := by
  have h1 : (Store.put (Store.empty String String) "k" "v" 1 "A").1 = true := rfl
  exact (put_get_roundtrip (Store.empty String String) "k" "v" 1 "A" h1).1

/-- One operation of the `KeyValueStore` API: `put`, `get`, or `get_all`. -/
inductive StoreOp (K V : Type) where
  | putOp (k : K) (v : V) (ts : Int) (nid : String)
  | getOp (k : K)
  | getAllOp

/-- The store state after one `KeyValueStore` operation: `put` replaces the
mapping, `get` and `get_all` are reads and leave it unchanged. -/
def StoreOp.apply {K V : Type} [DecidableEq K] (s : Store K V) : StoreOp K V → Store K V
  | .putOp k v ts nid => (Store.put s k v ts nid).2
  | .getOp k => (Store.getS s k).2
  | .getAllOp => (Store.getAllS s).2

/-- The store state after a sequence of `KeyValueStore` operations. -/
def runStoreOps {K V : Type} [DecidableEq K] (s : Store K V) (ops : List (StoreOp K V)) :
    Store K V :=
  ops.foldl StoreOp.apply s

theorem put_keeps_key {K V : Type} [DecidableEq K] (s : Store K V) (k : K) (v : V)
    (ts : Int) (nid : String) (x : K) (e : Entry V) (h : s x = some e) :
    ∃ e', (Store.put s k v ts nid).2 x = some e' := by
  rw [put_snd_apply]
  by_cases hx : x = k
  · subst hx
    rw [if_pos rfl, h]
    unfold stepCell
    by_cases hts : ts > e.timestamp
    · exact ⟨⟨v, ts, nid⟩, by simp [hts]⟩
    · exact ⟨e, by simp [hts]⟩
  · exact ⟨e, by rwa [if_neg hx]⟩

/-- C8: across any sequence of store operations, no key is ever removed: a key
mapped to an entry stays mapped to some entry (no operation deletes). -/
theorem store_keys_monotone {K V : Type} [DecidableEq K] (s : Store K V)
    (ops : List (StoreOp K V)) (x : K) (e : Entry V) (h : s x = some e) :
    ∃ e', runStoreOps s ops x = some e' := by
  induction ops generalizing s e with
  | nil => exact ⟨e, h⟩
  | cons op ops ih =>
    rw [runStoreOps, List.foldl_cons]
    cases op with
    | putOp k v ts nid =>
      obtain ⟨e', he'⟩ := put_keeps_key s k v ts nid x e h
      exact ih _ e' he'
    | getOp k => exact ih _ e h
    | getAllOp => exact ih _ e h

/-- Witness for `store_keys_monotone` at a concrete input. -/
theorem store_keys_monotone_witness :
    ∃ e', runStoreOps (Store.put (Store.empty String String) "k" "v" 1 "A").2
      [StoreOp.putOp "k" "w" 0 "B", StoreOp.getOp "k", StoreOp.getAllOp] "k" = some e' :=
  store_keys_monotone _ _ "k" ⟨"v", 1, "A"⟩ rfl

/-- A write tuple as replicated between nodes: key, value, timestamp, origin. -/
structure WriteTuple (K V : Type) where
  key : K
  value : V
  timestamp : Int
  origin : String
deriving DecidableEq, Repr

/-- Apply one write tuple to the store through `KeyValueStore.put`. -/
def applyTuple {K V : Type} [DecidableEq K] (s : Store K V) (t : WriteTuple K V) :
    Store K V :=
  (Store.put s t.key t.value t.timestamp t.origin).2

/-- Apply a list of write tuples in order through `KeyValueStore.put`. -/
def applyAll {K V : Type} [DecidableEq K] (l : List (WriteTuple K V)) (s : Store K V) :
    Store K V :=
  l.foldl applyTuple s

/-- Two tuples are tie-free when, if they write the same key, their timestamps
differ. -/
def TieFree {K V : Type} (a b : WriteTuple K V) : Prop :=
  a.key = b.key → a.timestamp ≠ b.timestamp

theorem tieFree_symm {K V : Type} : Symmetric (@TieFree K V) := by
  intro a b h hk
  exact Ne.symm (h hk.symm)

instance {K V : Type} [DecidableEq K] (a b : WriteTuple K V) : Decidable (TieFree a b) := by
  unfold TieFree
  infer_instance

theorem cell_swap {V : Type} (c : Option (Entry V)) (va vb : V) (ta tb : Int)
    (na nb : String) (h : ta ≠ tb) :
    stepCell (stepCell c va ta na) vb tb nb = stepCell (stepCell c vb tb nb) va ta na := by
  rcases c with _ | e
  · by_cases h1 : tb > ta <;> by_cases h2 : ta > tb
    · exfalso; omega
    · simp [stepCell, h1, h2]
    · simp [stepCell, h1, h2]
    · exfalso; omega
  · by_cases ha : ta > e.timestamp <;> by_cases hb : tb > e.timestamp
    · by_cases h3 : tb > ta
      · have h4 : ¬ ta > tb := by omega
        simp [stepCell, ha, hb, h3, h4]
      · have h4 : ta > tb := by omega
        simp [stepCell, ha, hb, h3, h4]
    · have h3 : ¬ tb > ta := by omega
      simp [stepCell, ha, hb, h3]
    · have h3 : ¬ ta > tb := by omega
      simp [stepCell, ha, hb, h3]
    · simp [stepCell, ha, hb]

theorem applyTuple_swap {K V : Type} [DecidableEq K] (s : Store K V)
    (a b : WriteTuple K V) (h : TieFree a b) :
    applyTuple (applyTuple s a) b = applyTuple (applyTuple s b) a := by
  funext x
  unfold applyTuple
  simp only [put_snd_apply]
  by_cases hab : a.key = b.key
  · have hts : a.timestamp ≠ b.timestamp := h hab
    by_cases hx : x = b.key
    · rw [hab]
      simp only [if_pos hx, if_pos rfl]
      exact cell_swap (s b.key) a.value b.value a.timestamp b.timestamp
        a.origin b.origin hts
    · rw [hab]
      simp only [if_neg hx]
  · have hba : ¬ b.key = a.key := fun hc => hab hc.symm
    simp only [if_neg hab, if_neg hba]
    by_cases hx : x = a.key
    · have hxb : ¬ x = b.key := fun hc => hab (hx.symm.trans hc)
      simp only [if_pos hx, if_neg hxb]
    · by_cases hxb : x = b.key
      · simp only [if_pos hxb, if_neg hx]
      · simp only [if_neg hx, if_neg hxb]

theorem applyAll_perm_aux {K V : Type} [DecidableEq K]
    {l1 l2 : List (WriteTuple K V)} (p : l1.Perm l2) (hp : l1.Pairwise TieFree) :
    ∀ s, applyAll l1 s = applyAll l2 s := by
  induction p with
  | nil => intro s; rfl
  | cons t p ih =>
    intro s
    rw [applyAll, applyAll, List.foldl_cons, List.foldl_cons]
    exact ih (List.Pairwise.of_cons hp) (applyTuple s t)
  | swap a b l =>
    intro s
    rw [applyAll, applyAll, List.foldl_cons, List.foldl_cons, List.foldl_cons,
      List.foldl_cons]
    have hba : TieFree b a := (List.pairwise_cons.mp hp).1 a (List.mem_cons_self a _)
    rw [applyTuple_swap s b a hba]
  | trans p1 p2 ih1 ih2 =>
    intro s
    rw [ih1 hp s]
    exact ih2 ((p1.pairwise_iff (fun hab => tieFree_symm hab)).mp hp) s

/-- C1 (amended): applying a fixed list of write tuples to the empty store in
any permutation yields an identical final mapping, provided any two tuples
writing the same key carry distinct timestamps. -/
theorem lww_merge_order_independent {K V : Type} [DecidableEq K]
    (l1 l2 : List (WriteTuple K V)) (hp : l1.Pairwise TieFree) (p : l1.Perm l2) :
    applyAll l1 (Store.empty K V) = applyAll l2 (Store.empty K V) :=
  applyAll_perm_aux p hp (Store.empty K V)

/-- Witness for `lww_merge_order_independent` at a concrete permutation. -/
theorem lww_merge_order_independent_witness :
    applyAll [WriteTuple.mk "k" "v1" 1 "A", WriteTuple.mk "k" "v2" 2 "B"]
        (Store.empty String String) =
      applyAll [WriteTuple.mk "k" "v2" 2 "B", WriteTuple.mk "k" "v1" 1 "A"]
        (Store.empty String String) :=
  lww_merge_order_independent _ _ (by decide) (by decide)

/-- Counterexample to C1 as stated: two equal-timestamp writes to the same key
from different origins form a two-element set whose two orders give different
final stores (the later-arriving value is the loser in both orders). -/
theorem lww_merge_order_counterexample :
    (List.Perm [WriteTuple.mk "k" "v1" 5 "o1", WriteTuple.mk "k" "v2" 5 "o2"]
        [WriteTuple.mk "k" "v2" 5 "o2", WriteTuple.mk "k" "v1" 5 "o1"]) ∧
    applyAll [WriteTuple.mk "k" "v1" 5 "o1", WriteTuple.mk "k" "v2" 5 "o2"]
        (Store.empty String String) ≠
      applyAll [WriteTuple.mk "k" "v2" 5 "o2", WriteTuple.mk "k" "v1" 5 "o1"]
        (Store.empty String String) := by
  constructor
  · decide
  · intro hc
    have h := congrFun hc "k"
    have h1 : applyAll [WriteTuple.mk "k" "v1" 5 "o1", WriteTuple.mk "k" "v2" 5 "o2"]
        (Store.empty String String) "k" = some ⟨"v1", 5, "o1"⟩ := by
      simp [applyAll, applyTuple, Store.put, Store.empty]
    have h2 : applyAll [WriteTuple.mk "k" "v2" 5 "o2", WriteTuple.mk "k" "v1" 5 "o1"]
        (Store.empty String String) "k" = some ⟨"v2", 5, "o2"⟩ := by
      simp [applyAll, applyTuple, Store.put, Store.empty]
    rw [h1, h2] at h
    simp at h

/-- The Lamport logical clock: a single scalar `time`, initially 0. -/
structure LamportClock where
  time : Int
deriving DecidableEq, Repr

/-- `LamportClock.increment()`: `time += 1`, returning the new time together
with the updated clock. -/
def LamportClock.increment (c : LamportClock) : Int × LamportClock :=
  (c.time + 1, ⟨c.time + 1⟩)

/-- `LamportClock.update(received_time)`: `time = max(time, received_time) + 1`,
returning the new time together with the updated clock. -/
def LamportClock.update (c : LamportClock) (received_time : Int) : Int × LamportClock :=
  (max c.time received_time + 1, ⟨max c.time received_time + 1⟩)

/-- `LamportClock.get_time()`: read the current clock value. -/
def LamportClock.get_time (c : LamportClock) : Int := c.time

/-- One call on a Lamport clock: `increment()` or `update(received_time)`. -/
inductive ClockOp where
  | increment
  | update (received_time : Int)
deriving DecidableEq, Repr

/-- Dispatch one clock call, returning (return value, updated clock). -/
def clockStep (c : LamportClock) : ClockOp → Int × LamportClock
  | .increment => c.increment
  | .update r => c.update r

/-- The list of return values of a sequence of clock calls. -/
def runClock (c : LamportClock) : List ClockOp → List Int
  | [] => []
  | op :: ops => (clockStep c op).1 :: runClock (clockStep c op).2 ops

theorem clockStep_fst (c : LamportClock) (op : ClockOp) :
    (clockStep c op).1 = (clockStep c op).2.time := by
  cases op <;> rfl

theorem clockStep_time_lt (c : LamportClock) (op : ClockOp) :
    c.time < (clockStep c op).2.time := by
  cases op with
  | increment => simp [clockStep, LamportClock.increment]
  | update r =>
    simp only [clockStep, LamportClock.update]
    have := le_max_left c.time r
    omega

theorem clockStep_update_gt (c : LamportClock) (r : Int) :
    r < (clockStep c (ClockOp.update r)).1 := by
  simp only [clockStep, LamportClock.update]
  have := le_max_right c.time r
  omega

theorem runClock_length (c : LamportClock) (ops : List ClockOp) :
    (runClock c ops).length = ops.length := by
  induction ops generalizing c with
  | nil => rfl
  | cons op ops ih => simp [runClock, ih]

theorem runClock_chain (c : LamportClock) (ops : List ClockOp) :
    List.Chain (· < ·) c.time (runClock c ops) := by
  induction ops generalizing c with
  | nil => exact List.Chain.nil
  | cons op ops ih =>
    rw [runClock]
    refine List.Chain.cons ?_ ?_
    · rw [clockStep_fst]
      exact clockStep_time_lt c op
    · rw [clockStep_fst]
      exact ih _

theorem runClock_pairwise (c : LamportClock) (ops : List ClockOp) :
    List.Pairwise (· < ·) (runClock c ops) :=
  (List.chain_iff_pairwise.mp (runClock_chain c ops)).of_cons

theorem runClock_update_gt (c : LamportClock) (ops : List ClockOp) :
    List.Forall₂ (fun op out => ∀ r, op = ClockOp.update r → r < out)
      ops (runClock c ops) := by
  induction ops generalizing c with
  | nil => exact List.Forall₂.nil
  | cons op ops ih =>
    rw [runClock]
    refine List.Forall₂.cons ?_ (ih _)
    intro r hr
    subst hr
    exact clockStep_update_gt c r

/-- C3: over any sequence of `increment`/`update` calls on one clock started at
0 with non-negative received arguments, the return values are strictly
increasing call over call, and each `update` call returns a value strictly
greater than the received argument passed to it. -/
theorem lamport_clock_monotone (ops : List ClockOp)
    (_hnn : ∀ r, ClockOp.update r ∈ ops → 0 ≤ r) :
    (∀ i j : Fin (runClock ⟨0⟩ ops).length, i < j →
      (runClock ⟨0⟩ ops).get i < (runClock ⟨0⟩ ops).get j) ∧
    List.Forall₂ (fun op out => ∀ r, op = ClockOp.update r → r < out)
      ops (runClock ⟨0⟩ ops) := by
  refine ⟨?_, runClock_update_gt ⟨0⟩ ops⟩
  intro i j hij
  exact List.pairwise_iff_get.mp (runClock_pairwise ⟨0⟩ ops) i j hij

/-- Witness for `lamport_clock_monotone`: the first two outputs of a concrete
call sequence are strictly ordered. -/
theorem lamport_clock_monotone_witness :
    (runClock ⟨0⟩ [ClockOp.increment, ClockOp.update 5, ClockOp.increment]).get ⟨0, by decide⟩ <
      (runClock ⟨0⟩ [ClockOp.increment, ClockOp.update 5, ClockOp.increment]).get ⟨1, by decide⟩ :=
  (lamport_clock_monotone [ClockOp.increment, ClockOp.update 5, ClockOp.increment]
    (by intro r hr; simp at hr; omega)).1 ⟨0, by decide⟩ ⟨1, by decide⟩ (by decide)

/-- The state of a `Node`: its id, Lamport clock and key-value store.  Keys
arriving over the JSON transport are strings; values stay opaque. -/
structure NodeState (V : Type) where
  node_id : String
  clock : LamportClock
  store : Store String V

/-- The response dict of `Node.handle_put`:
`{'status': 'ok', 'timestamp': timestamp, 'node': self.node_id}`. -/
structure PutResponse where
  status : String
  timestamp : Int
  node : String
deriving DecidableEq, Repr

/-- The response dict of `Node.handle_replicate`:
`{'status': 'ok', 'applied': applied}`. -/
structure ReplicateResponse where
  status : String
  applied : Bool
deriving DecidableEq, Repr

/-- `Node.handle_put(key, value)`: increment the clock, apply the write to the
local store with the new timestamp (the applied flag is discarded), and answer
`{'status': 'ok', 'timestamp': ts, 'node': self.node_id}`.  Replication to the
peers is asynchronous and does not touch this node's state. -/
def handle_put {V : Type} (st : NodeState V) (k : String) (v : V) :
    PutResponse × NodeState V :=
  (⟨"ok", (st.clock.increment).1, st.node_id⟩,
   ⟨st.node_id, (st.clock.increment).2,
    (st.store.put k v (st.clock.increment).1 st.node_id).2⟩)

/-- `Node.handle_replicate(key, value, timestamp, source_node)`: update the
clock with the received timestamp, apply the write via LWW, and answer
`{'status': 'ok', 'applied': applied}`. -/
def handle_replicate {V : Type} (st : NodeState V) (k : String) (v : V)
    (ts : Int) (source_node : String) : ReplicateResponse × NodeState V :=
  (⟨"ok", (st.store.put k v ts source_node).1⟩,
   ⟨st.node_id, (st.clock.update ts).2, (st.store.put k v ts source_node).2⟩)

/-- One externally triggered state-changing event on a node: a local `PUT` or
an inbound replication. -/
inductive NodeEvent (V : Type) where
  | putEv (k : String) (v : V)
  | replicateEv (k : String) (v : V) (ts : Int) (source_node : String)

/-- The node state after handling one event. -/
def NodeState.step {V : Type} (st : NodeState V) : NodeEvent V → NodeState V
  | .putEv k v => (handle_put st k v).2
  | .replicateEv k v ts src => (handle_replicate st k v ts src).2

/-- A freshly started node: clock at 0, empty store. -/
def initNode (V : Type) (nid : String) : NodeState V :=
  ⟨nid, ⟨0⟩, Store.empty String V⟩

/-- The node state after a sequence of events from startup. -/
def runNode {V : Type} (nid : String) (evs : List (NodeEvent V)) : NodeState V :=
  evs.foldl NodeState.step (initNode V nid)

/-- Every entry in the store carries a timestamp at most the node's clock. -/
def StoreLeClock {V : Type} (st : NodeState V) : Prop :=
  ∀ k e, st.store k = some e → e.timestamp ≤ st.clock.time

theorem stepCell_cases {V : Type} (c : Option (Entry V)) (v : V) (ts : Int)
    (nid : String) :
    stepCell c v ts nid = some ⟨v, ts, nid⟩ ∨
      ∃ e, c = some e ∧ stepCell c v ts nid = some e := by
  rcases c with _ | e
  · left; rfl
  · by_cases h : ts > e.timestamp
    · left; simp [stepCell, h]
    · right; exact ⟨e, rfl, by simp [stepCell, h]⟩

theorem step_preserves_inv {V : Type} (st : NodeState V) (ev : NodeEvent V)
    (h : StoreLeClock st) : StoreLeClock (st.step ev) := by
  cases ev with
  | putEv k v =>
    intro x e hx
    simp only [NodeState.step, handle_put, LamportClock.increment] at hx ⊢
    rw [put_snd_apply] at hx
    by_cases hk : x = k
    · rw [if_pos hk] at hx
      rcases stepCell_cases (st.store k) v (st.clock.time + 1) st.node_id with
        hc | ⟨e0, he0, hc⟩
      · rw [hc] at hx
        obtain rfl := Option.some.inj hx
        simp
      · rw [hc] at hx
        have hle := h k e0 he0
        obtain rfl := Option.some.inj hx
        omega
    · rw [if_neg hk] at hx
      have := h x e hx
      omega
  | replicateEv k v ts src =>
    intro x e hx
    simp only [NodeState.step, handle_replicate, LamportClock.update] at hx ⊢
    rw [put_snd_apply] at hx
    have hmax1 := le_max_left st.clock.time ts
    have hmax2 := le_max_right st.clock.time ts
    by_cases hk : x = k
    · rw [if_pos hk] at hx
      rcases stepCell_cases (st.store k) v ts src with hc | ⟨e0, he0, hc⟩
      · rw [hc] at hx
        obtain rfl := Option.some.inj hx
        simp only
        omega
      · rw [hc] at hx
        have hle := h k e0 he0
        obtain rfl := Option.some.inj hx
        omega
    · rw [if_neg hk] at hx
      have := h x e hx
      omega

theorem runNode_inv_aux {V : Type} (evs : List (NodeEvent V)) (st : NodeState V)
    (h : StoreLeClock st) : StoreLeClock (evs.foldl NodeState.step st) := by
  induction evs generalizing st with
  | nil => exact h
  | cons ev evs ih =>
    rw [List.foldl_cons]
    exact ih _ (step_preserves_inv st ev h)

theorem runNode_inv {V : Type} (nid : String) (evs : List (NodeEvent V)) :
    StoreLeClock (runNode nid evs) := by
  refine runNode_inv_aux evs (initNode V nid) ?_
  intro k e hk
  exact absurd hk (by simp [initNode, Store.empty])

theorem runNode_node_id {V : Type} (nid : String) (evs : List (NodeEvent V)) :
    (runNode nid evs).node_id = nid := by
  suffices h : ∀ (l : List (NodeEvent V)) (st : NodeState V),
      (l.foldl NodeState.step st).node_id = st.node_id by
    exact h evs (initNode V nid)
  intro l
  induction l with
  | nil => intro st; rfl
  | cons ev evs ih =>
    intro st
    rw [List.foldl_cons, ih]
    cases ev <;> rfl

/-- C10: after any sequence of `handle_put`/`handle_replicate` events from the
initial state, every stored entry's timestamp is at most the node's Lamport
clock. -/
theorem store_ts_le_clock {V : Type} (nid : String) (evs : List (NodeEvent V))
    (k : String) (e : Entry V) (h : (runNode nid evs).store k = some e) :
    e.timestamp ≤ (runNode nid evs).clock.time :=
  runNode_inv nid evs k e h

/-- Witness for `store_ts_le_clock` on a concrete event sequence. -/
theorem store_ts_le_clock_witness :
    (Entry.mk (V := String) "v" 1 "A").timestamp ≤
      (runNode "A" [NodeEvent.putEv "k" "v"]).clock.time :=
  store_ts_le_clock "A" [NodeEvent.putEv "k" "v"] "k" ⟨"v", 1, "A"⟩ (by decide)

/-- C5: on any reachable node state, `handle_put` answers
`{'status': 'ok', 'timestamp': <new clock value>, 'node': <this node>}`
unconditionally, and the `store.put` it performs is never refused. -/
theorem handle_put_always_ok {V : Type} (nid : String) (evs : List (NodeEvent V))
    (k : String) (v : V) :
    (handle_put (runNode nid evs) k v).1 =
      ⟨"ok", (runNode nid evs).clock.time + 1, nid⟩ ∧
    ((runNode nid evs).store.put k v ((runNode nid evs).clock.increment).1
      (runNode nid evs).node_id).1 = true := by
  constructor
  · simp [handle_put, LamportClock.increment, runNode_node_id]
  · rw [put_fst_eq]
    rcases hs : (runNode nid evs).store k with _ | e
    · rfl
    · have := runNode_inv nid evs k e hs
      simp only [LamportClock.increment, decide_eq_true_eq]
      omega

/-- The retry loop of `Node._replicate_to_peer`, abstracted over which attempt
indices would succeed.  `attempt` is the current value of the loop variable and
`rem + 1` the number of iterations still allowed (`max_retries - attempt`), so
`rem = 0` holds exactly on the last allowed attempt (`attempt = max_retries - 1`),
on which a failure triggers no backoff sleep.  Returns the number of attempts
made, the backoff sleep durations performed in order (`2 ** attempt` after each
failed non-final attempt), and whether a delivery succeeded. -/
def retryLoop (succeeds : Nat → Bool) : Nat → Nat → Nat × List Nat × Bool
  | attempt, 0 => (attempt, [], false)
  | attempt, rem + 1 =>
    if succeeds attempt then
      (attempt + 1, [], true)
    else if rem = 0 then
      (attempt + 1, [], false)
    else
      ((retryLoop succeeds (attempt + 1) rem).1,
       2 ^ attempt :: (retryLoop succeeds (attempt + 1) rem).2.1,
       (retryLoop succeeds (attempt + 1) rem).2.2)

/-- `Node._replicate_to_peer` with its hard-coded `max_retries = 3`, starting
at attempt 0. -/
def replicate_to_peer (succeeds : Nat → Bool) : Nat × List Nat × Bool :=
  retryLoop succeeds 0 3

/-- A peer that never acknowledges: every delivery attempt fails. -/
def alwaysFails : Nat → Bool := fun _ => false

/-- C6 (amended): when every delivery attempt fails, `_replicate_to_peer` makes
exactly 3 attempts with backoff sleeps of 1 then 2 time units between them (no
sleep after the final attempt) and gives up reporting failure. -/
theorem replicate_retry_exhaustion (succeeds : Nat → Bool)
    (h : ∀ n, succeeds n = false) :
    replicate_to_peer succeeds = (3, [1, 2], false) := by
  have h0 := h 0
  have h1 := h 1
  have h2 := h 2
  simp [replicate_to_peer, retryLoop, h0, h1, h2]

/-- Witness for `replicate_retry_exhaustion` on the concrete always-failing
peer. -/
theorem replicate_retry_exhaustion_witness :
    replicate_to_peer alwaysFails = (3, [1, 2], false) :=
  replicate_retry_exhaustion alwaysFails (fun _ => rfl)

/-- Counterexample to C6 as stated: against an always-failing peer the loop
performs only two backoff sleeps, 1 and 2 — not three sleeps of 1, 2 and 4 —
around its 3 attempts. -/
theorem replicate_retry_counterexample :
    (replicate_to_peer alwaysFails).1 = 3 ∧
    (replicate_to_peer alwaysFails).2.1 = [1, 2] ∧
    (replicate_to_peer alwaysFails).2.1 ≠ [1, 2, 4] := by
  refine ⟨rfl, rfl, ?_⟩
  intro hc
  simp [replicate_to_peer, retryLoop, alwaysFails] at hc

/-- The JSON body of a `POST /replicate` request, as read by
`RequestHandler.do_POST`: each field is `data.get(...)`, `none` when absent
(or JSON `null`).  Keys, origins and timestamps from the transport are
strings and integers; values stay opaque. -/
structure ReplicateBody (V : Type) where
  key : Option String
  value : Option V
  timestamp : Option Int
  source_node : Option String
deriving DecidableEq

/-- The `/replicate` branch of `RequestHandler.do_POST`: answer 400 when
`not all([key, value is not None, timestamp, source_node])` — Python truthiness
makes `None` and `""` falsy for the string fields and `None` and `0` falsy for
the timestamp, while the value is only checked against `None` — otherwise call
`Node.handle_replicate` and answer 200 with its result. -/
def do_POST_replicate {V : Type} (st : NodeState V) (b : ReplicateBody V) :
    Nat × Option ReplicateResponse × NodeState V :=
  match b.key, b.value, b.timestamp, b.source_node with
  | some k, some v, some ts, some src =>
    if k ≠ "" ∧ ts ≠ 0 ∧ src ≠ "" then
      (200, some (handle_replicate st k v ts src).1, (handle_replicate st k v ts src).2)
    else
      (400, none, st)
  | _, _, _, _ => (400, none, st)

/-- A request body the `/replicate` validation rejects: a field is missing, a
string field is empty, or the timestamp is zero. -/
def replicateFieldBad {V : Type} (b : ReplicateBody V) : Prop :=
  b.key = none ∨ b.key = some "" ∨ b.value = none ∨ b.timestamp = none ∨
    b.timestamp = some 0 ∨ b.source_node = none ∨ b.source_node = some ""

instance {V : Type} [DecidableEq V] (b : ReplicateBody V) :
    Decidable (replicateFieldBad b) := by
  unfold replicateFieldBad
  infer_instance


/-- C7 (amended): `POST /replicate` is answered 400 exactly when a field is
missing or falsy (empty `key`/`source_node`, zero `timestamp`, absent `value`);
any other body reaches `handle_replicate` and is answered 200 with
`{'status': 'ok', 'applied': applied}`. -/
theorem replicate_validation {V : Type} (st : NodeState V) (b : ReplicateBody V) :
    ((do_POST_replicate st b).1 = 400 ↔ replicateFieldBad b) ∧
    (∀ k v ts src, b = ⟨some k, some v, some ts, some src⟩ → ¬ replicateFieldBad b →
      do_POST_replicate st b =
        (200, some ⟨"ok", (st.store.put k v ts src).1⟩,
          (handle_replicate st k v ts src).2)) := by
  constructor
  · rcases b with ⟨ko, vo, tso, sno⟩
    rcases ko with _ | k
    · simp [do_POST_replicate, replicateFieldBad]
    · rcases vo with _ | v
      · simp [do_POST_replicate, replicateFieldBad]
      · rcases tso with _ | ts
        · simp [do_POST_replicate, replicateFieldBad]
        · rcases sno with _ | src
          · simp [do_POST_replicate, replicateFieldBad]
          · by_cases hk : k = "" <;> by_cases ht : ts = 0 <;> by_cases hs : src = "" <;>
              simp [do_POST_replicate, replicateFieldBad, hk, ht, hs]
  · intro k v ts src heq hbad
    subst heq
    simp only [replicateFieldBad] at hbad
    push_neg at hbad
    have hk : k ≠ "" := by
      intro hc
      exact hbad.2.1 (by rw [hc])
    have ht : ts ≠ 0 := by
      intro hc
      exact hbad.2.2.2.2.1 (by rw [hc])
    have hs : src ≠ "" := by
      intro hc
      exact hbad.2.2.2.2.2.2 (by rw [hc])
    simp [do_POST_replicate, handle_replicate, hk, ht, hs]

/-- Witness for `replicate_validation`: a complete, non-falsy body is answered
200 with the LWW application result. -/
theorem replicate_validation_witness :
    do_POST_replicate (initNode String "B") ⟨some "k", some "v", some 3, some "A"⟩ =
      (200, some ⟨"ok", ((initNode String "B").store.put "k" "v" 3 "A").1⟩,
        (handle_replicate (initNode String "B") "k" "v" 3 "A").2) :=
  (replicate_validation (initNode String "B")
    ⟨some "k", some "v", some 3, some "A"⟩).2 "k" "v" 3 "A" rfl (by decide)

/-- Counterexample to C7 as stated: a body with all four fields present but
`timestamp = 0` is answered 400, although no field is missing. -/
theorem replicate_validation_counterexample :
    (do_POST_replicate (initNode String "B")
      ⟨some "k", some "v", some 0, some "A"⟩).1 = 400 ∧
    (ReplicateBody.mk (V := String) (some "k") (some "v") (some 0) (some "A")).key.isSome = true ∧
    (ReplicateBody.mk (V := String) (some "k") (some "v") (some 0) (some "A")).value.isSome = true ∧
    (ReplicateBody.mk (V := String) (some "k") (some "v") (some 0) (some "A")).timestamp.isSome = true ∧
    (ReplicateBody.mk (V := String) (some "k") (some "v") (some 0) (some "A")).source_node.isSome = true := by
  refine ⟨?_, rfl, rfl, rfl, rfl⟩
  simp [do_POST_replicate]

end DistKV
